import Mathlib

/-!
Shallow embedding of the stillverse image-composition engine
(editor page: canvas render effect, layout, palette settings, export filename,
color utility).  JavaScript strings are modelled as `List Char`; JavaScript
numbers appearing in geometry are modelled as `ℚ` (exact rational arithmetic);
`ctx.measureText` is an abstract width function passed as a parameter.
-/

namespace Stillverse

/-- JavaScript string, modelled as a list of characters. -/
abbrev JSStr := List Char

/-- Coerce a Lean string literal to the `List Char` model. -/
def strToL (s : String) : JSStr := s.data

/-! ## String utilities (JS `split(" ")`, `trim`, `replace`, `padEnd`) -/

/-- JS `s.split(" ")`: split on every single space character; the empty
string yields `[""]`, and adjacent spaces yield empty-string tokens. -/
def splitOnSpace : JSStr → List JSStr
  | [] => [[]]
  | c :: rest =>
    if c = ' ' then [] :: splitOnSpace rest
    else
      match splitOnSpace rest with
      | [] => [[c]]
      | t :: ts => (c :: t) :: ts

/-- Drop leading whitespace (JS `trimStart`). -/
def trimHead (s : JSStr) : JSStr := s.dropWhile Char.isWhitespace

/-- Drop trailing whitespace (JS `trimEnd`). -/
def trimTail (s : JSStr) : JSStr :=
  (s.reverse.dropWhile Char.isWhitespace).reverse

/-- JS `s.trim()`: drop whitespace from both ends. -/
def trim (s : JSStr) : JSStr := trimHead (trimTail s)

/-- JS `s.replace("#", "")`: remove the first occurrence of `'#'` only. -/
def replaceFirstHash : JSStr → JSStr
  | [] => []
  | c :: rest => if c = '#' then rest else c :: replaceFirstHash rest

/-- Worker for `collapseWS`; the flag records whether we are inside a
whitespace run that has already emitted its hyphen. -/
def collapseWSAux : Bool → JSStr → JSStr
  | _, [] => []
  | inRun, c :: rest =>
    if c.isWhitespace then
      if inRun then collapseWSAux true rest
      else '-' :: collapseWSAux true rest
    else c :: collapseWSAux false rest

/-- JS `s.replace(/\s+/g, "-")`: every maximal whitespace run becomes one
hyphen. -/
def collapseWS (s : JSStr) : JSStr := collapseWSAux false s

/-- JS `s.padEnd (6, "0")`. -/
def padEndZero6 (s : JSStr) : JSStr := s ++ List.replicate (6 - s.length) '0'

/-- JS `s || d` for strings: the empty string is falsy. -/
def jsOrDefault (s d : JSStr) : JSStr := if s = [] then d else s

/-! ## Color utility: `hexToRgba` -/

/-- Value of one hexadecimal digit, `none` when the character is not a hex
digit. -/
def hexDigitVal (c : Char) : Option Nat :=
  if '0' ≤ c ∧ c ≤ '9' then some (c.toNat - '0'.toNat)
  else if 'a' ≤ c ∧ c ≤ 'f' then some (c.toNat - 'a'.toNat + 10)
  else if 'A' ≤ c ∧ c ≤ 'F' then some (c.toNat - 'A'.toNat + 10)
  else none

/-- Accumulate the longest leading run of hex digits. -/
def hexRun (acc : Nat) : JSStr → Nat
  | [] => acc
  | c :: rest =>
    match hexDigitVal c with
    | some v => hexRun (acc * 16 + v) rest
    | none => acc

/-- Parse the leading hex digits; `none` (JS `NaN`) when there are none. -/
def hexDigitsVal : JSStr → Option Nat
  | [] => none
  | c :: rest =>
    match hexDigitVal c with
    | some v => some (hexRun v rest)
    | none => none

/-- JS `parseInt(s, 16)`: skip leading whitespace, optional sign, optional
`0x`/`0X` prefix, then the longest run of hex digits; `none` models `NaN`. -/
def jsParseIntHex (s : JSStr) : Option Int :=
  let s1 := s.dropWhile Char.isWhitespace
  let signed : Bool × JSStr :=
    match s1 with
    | '+' :: r => (false, r)
    | '-' :: r => (true, r)
    | _ => (false, s1)
  let body : JSStr :=
    match signed.2 with
    | '0' :: 'x' :: r => r
    | '0' :: 'X' :: r => r
    | _ => signed.2
  match hexDigitsVal body with
  | none => none
  | some n => some (if signed.1 then -(n : Int) else (n : Int))

/-- JS template interpolation of a number that may be `NaN`. -/
def jsNumStr : Option Int → JSStr
  | none => strToL "NaN"
  | some n => (toString n).data

/-- The six-character hex body used by `hexToRgba`: strip the first `'#'`;
a 3-character string has each digit doubled, anything else is padded with
`'0'` to length 6 and truncated to 6. -/
def fullHexOf (hex : JSStr) : JSStr :=
  let sanitized := replaceFirstHash hex
  if sanitized.length = 3 then (sanitized.map (fun c => [c, c])).flatten
  else (padEndZero6 sanitized).take 6

/-- `hexToRgba` from the source.  The numeric `alpha` argument only flows
into the output string through JS number formatting, so it is taken here
already rendered (`alphaStr`). -/
def hexToRgba (hex : JSStr) (alphaStr : JSStr) : JSStr :=
  let fullHex := fullHexOf hex
  let r := jsParseIntHex (fullHex.take 2)
  let g := jsParseIntHex ((fullHex.drop 2).take 2)
  let b := jsParseIntHex ((fullHex.drop 4).take 2)
  strToL "rgba(" ++ jsNumStr r ++ strToL ", " ++ jsNumStr g ++ strToL ", " ++
    jsNumStr b ++ strToL ", " ++ alphaStr ++ strToL ")"

/-- Exact rendering of a rational; stands in for JS number formatting where
a number is interpolated into a style string. -/
def qStr (q : ℚ) : JSStr :=
  if q.den = 1 then (toString q.num).data
  else (toString q.num).data ++ '/' :: (toString q.den).data

/-! ## Data model -/

inductive StyleType
  | minimal | gradient | paper | night
deriving DecidableEq, Repr

inductive SizeType
  | story | square | wide
deriving DecidableEq, Repr

inductive BackgroundMode
  | palette | photo
deriving DecidableEq, Repr

/-- `SIZE_DIMENSIONS` from the source. -/
def SIZE_DIMENSIONS : SizeType → ℚ × ℚ
  | .story => (1080, 1920)
  | .square => (1080, 1080)
  | .wide => (1920, 1080)

structure PaletteSetting where
  background : JSStr
  backgroundAlt : Option JSStr
  text : JSStr
deriving DecidableEq, Repr

/-- `DEFAULT_PALETTE_SETTINGS` from the source. -/
def DEFAULT_PALETTE_SETTINGS : StyleType → PaletteSetting
  | .minimal => ⟨strToL "#F8F7F4", none, strToL "#1B4332"⟩
  | .gradient => ⟨strToL "#1B4332", some (strToL "#2D6A4F"), strToL "#F8F7F4"⟩
  | .paper => ⟨strToL "#FFF9F0", none, strToL "#1B4332"⟩
  | .night => ⟨strToL "#0F1C16", none, strToL "#F8F7F4"⟩

structure PhotoAppearance where
  photoOpacity : ℚ
  overlayColor : JSStr
  overlayOpacity : ℚ
  textColor : JSStr

structure UnsplashPhoto where
  id : JSStr
  description : JSStr
  photographer : JSStr
  link : JSStr
  thumb : JSStr
  full : JSStr

/-- The composition request: the state the render effect reads. -/
structure Request where
  verseText : JSStr
  reference : JSStr
  style : StyleType
  size : SizeType
  backgroundMode : BackgroundMode
  selectedPhoto : Option UnsplashPhoto
  paletteSettings : StyleType → PaletteSetting
  photoAppearance : PhotoAppearance

/-! ## Palette-settings updates -/

inductive PaletteKey
  | background | backgroundAlt | text
deriving DecidableEq, Repr

/-- Object-spread update of one field of a `PaletteSetting`. -/
def setPaletteField (p : PaletteSetting) : PaletteKey → JSStr → PaletteSetting
  | .background, v => { p with background := v }
  | .backgroundAlt, v => { p with backgroundAlt := some v }
  | .text, v => { p with text := v }

/-- `updatePaletteSetting` from the source: spread the previous record,
replacing only the target style's entry, in which only `key` changes. -/
def updatePaletteSetting (settings : StyleType → PaletteSetting)
    (targetStyle : StyleType) (key : PaletteKey) (value : JSStr) :
    StyleType → PaletteSetting :=
  fun s => if s = targetStyle then setPaletteField (settings targetStyle) key value
           else settings s

/-- `resetPaletteSetting` from the source: replace the target style's entry
with a copy of its built-in default. -/
def resetPaletteSetting (settings : StyleType → PaletteSetting)
    (targetStyle : StyleType) : StyleType → PaletteSetting :=
  fun s => if s = targetStyle then DEFAULT_PALETTE_SETTINGS targetStyle
           else settings s

/-- A sequence of `updatePaletteSetting` calls, applied left to right. -/
def applyPaletteUpdates (init : StyleType → PaletteSetting)
    (us : List (StyleType × PaletteKey × JSStr)) : StyleType → PaletteSetting :=
  us.foldl (fun st u => updatePaletteSetting st u.1 u.2.1 u.2.2) init

/-! ## Export filename (`handleDownload`) -/

/-- The `download` attribute computed by `handleDownload`:
`stillverse-${reference.replace(/\s+/g, "-").toLowerCase() || "verse"}.png`. -/
def handleDownloadFilename (reference : JSStr) : JSStr :=
  strToL "stillverse-" ++
    jsOrDefault ((collapseWS reference).map Char.toLower) (strToL "verse") ++
    strToL ".png"

/-! ## Canvas command model

A render is modelled as the list of 2D-context commands it issues.
`save`/`restore`/`setGlobalAlpha` are context commands; the rest are paint
commands.  `textAlign`/`textBaseline` (constants `center`/`middle` in the
source) are folded into the meaning of `fillText` coordinates. -/

inductive FillStyle
  | solid (color : JSStr)
  | linearGradient (x0 y0 x1 y1 : ℚ) (stops : List (ℚ × JSStr))
deriving DecidableEq, Repr

inductive Cmd
  | save
  | restore
  | setGlobalAlpha (a : ℚ)
  | fillRect (x y w h : ℚ) (style : FillStyle)
  | drawImage (dx dy dw dh : ℚ)
  | fillText (text : JSStr) (x y : ℚ) (fontSize : ℚ) (fontFamily : JSStr)
      (color : JSStr)
deriving DecidableEq, Repr

/-! ## Layout engine (`drawTextLayer`) -/

/-- Body font size: `size === "story" ? 72 : size === "wide" ? 64 : 68`. -/
def bodyFontSize : SizeType → ℚ
  | .story => 72
  | .wide => 64
  | .square => 68

/-- Reference font size: `size === "story" ? 36 : size === "wide" ? 32 : 34`. -/
def refFontSize : SizeType → ℚ
  | .story => 36
  | .wide => 32
  | .square => 34

/-- `lineHeight = fontSize * 1.5`. -/
def lineHeightOf (sz : SizeType) : ℚ := bodyFontSize sz * (3 / 2)

/-- `totalHeight = lines.length * lineHeight`. -/
def totalHeightOf (sz : SizeType) (n : ℕ) : ℚ := n * lineHeightOf sz

/-- `startY = (height - totalHeight) / 2`. -/
def startYOf (height : ℚ) (sz : SizeType) (n : ℕ) : ℚ :=
  (height - totalHeightOf sz n) / 2

/-- One iteration of the greedy word-wrap loop: the accumulator is
`(lines, currentLine)`.  The test line is `currentLine + word + " "`; on
overflow with a nonempty current line, the trimmed current line is
committed and the word starts a new line, else the test line is kept. -/
def wrapStep (measure : JSStr → ℚ) (maxWidth : ℚ)
    (acc : List JSStr × JSStr) (word : JSStr) : List JSStr × JSStr :=
  let testLine := acc.2 ++ word ++ [' ']
  if maxWidth < measure testLine ∧ acc.2 ≠ [] then
    (acc.1 ++ [trim acc.2], word ++ [' '])
  else
    (acc.1, testLine)

/-- The full wrap loop plus the final `lines.push(currentLine.trim())`. -/
def wrapLines (measure : JSStr → ℚ) (maxWidth : ℚ) (words : List JSStr) :
    List JSStr :=
  let acc := words.foldl (wrapStep measure maxWidth) ([], [])
  acc.1 ++ [trim acc.2]

/-- The lines `drawTextLayer` lays out: greedy wrap of
`verseText.split(" ")` against `maxWidth = width * 0.8`, measured by the
abstract `measure` (the source's `ctx.measureText` under the body font). -/
def layoutLines (measure : JSStr → ℚ) (verseText : JSStr) (width : ℚ) :
    List JSStr :=
  wrapLines measure (width * (4 / 5)) (splitOnSpace verseText)

/-- Font family string of the verse body. -/
def playfairFamily : JSStr := strToL "\"Playfair Display\", serif"

/-- Font family string of the reference line. -/
def interFamily : JSStr := strToL "\"Inter\", sans-serif"

/-- `drawTextLayer(textColor)` from the source: wrap the verse, draw each
line centered at `width/2`, `startY + (index + 0.5) * lineHeight`, then, if
the reference is nonempty, draw it at `startY + totalHeight + 80` in the
smaller font with fill color `textColor + "CC"`. -/
def drawTextLayer (measure : JSStr → ℚ) (textColor : JSStr)
    (verseText reference : JSStr) (sz : SizeType) (width height : ℚ) :
    List Cmd :=
  let lines := layoutLines measure verseText width
  let startY := startYOf height sz lines.length
  (lines.enum.map fun p =>
    Cmd.fillText p.2 (width / 2)
      (startY + ((p.1 : ℚ) + 1 / 2) * lineHeightOf sz)
      (bodyFontSize sz) playfairFamily textColor) ++
  (if reference = [] then []
   else [Cmd.fillText reference (width / 2)
          (startY + totalHeightOf sz lines.length + 80)
          (refFontSize sz) interFamily (textColor ++ strToL "CC")])

/-! ## Background renderer and render effect

The render effect clears the canvas (`canvas.width = width` resets it),
then either paints the palette background synchronously or starts an
asynchronous photo load whose handlers check an `isCancelled` flag that the
effect's cleanup sets.  `noise` models the stream of `Math.random()` pairs
used by the paper speckles. -/

/-- The fill commands of `drawPaletteBackground` (everything before its
final `drawTextLayer` call). -/
def paletteFillCmds (noise : ℕ → ℚ × ℚ) (r : Request) (width height : ℚ) :
    List Cmd :=
  let palette := r.paletteSettings r.style
  if r.style = .gradient then
    [Cmd.fillRect 0 0 width height
      (.linearGradient 0 0 0 height
        [(0, palette.background),
         (1, palette.backgroundAlt.getD palette.background)])]
  else
    Cmd.fillRect 0 0 width height (.solid palette.background) ::
    (if r.style = .paper then
      (List.range 1000).map fun i =>
        Cmd.fillRect (noise i).1 (noise i).2 2 2
          (.solid (strToL "rgba(139, 115, 85, 0.03)"))
     else [])

/-- `drawPaletteBackground` from the source: paint the style's background,
then draw the text layer in the style's text color. -/
def drawPaletteBackground (noise : ℕ → ℚ × ℚ) (measure : JSStr → ℚ)
    (r : Request) (width height : ℚ) : List Cmd :=
  paletteFillCmds noise r width height ++
    drawTextLayer measure (r.paletteSettings r.style).text
      r.verseText r.reference r.size width height

/-- The commands the photo `img.onload` handler issues when not cancelled:
cover-fit scale, centered draw under `photoOpacity`, optional overlay fill,
then the text layer in the photo text color. -/
def photoOnloadCmds (measure : JSStr → ℚ) (r : Request) (imgW imgH : ℚ) :
    List Cmd :=
  let width := (SIZE_DIMENSIONS r.size).1
  let height := (SIZE_DIMENSIONS r.size).2
  let scale := max (width / imgW) (height / imgH)
  let scaledWidth := imgW * scale
  let scaledHeight := imgH * scale
  let dx := (width - scaledWidth) / 2
  let dy := (height - scaledHeight) / 2
  [Cmd.save, Cmd.setGlobalAlpha r.photoAppearance.photoOpacity,
   Cmd.drawImage dx dy scaledWidth scaledHeight, Cmd.restore] ++
  (if 0 < r.photoAppearance.overlayOpacity then
    [Cmd.fillRect 0 0 width height
      (.solid (hexToRgba r.photoAppearance.overlayColor
        (qStr r.photoAppearance.overlayOpacity)))]
   else []) ++
  drawTextLayer measure r.photoAppearance.textColor
    r.verseText r.reference r.size width height

/-- Outcome of an asynchronous image load. -/
inductive LoadOutcome
  | success (imgW imgH : ℚ)
  | failure

/-- Orchestrator state: the canvas contents (commands issued since the last
reset) and the pending photo loads, each carrying the request captured at
load start and its `isCancelled` flag. -/
structure SysState where
  canvas : List Cmd
  pending : List (Request × Bool)

/-- State before any effect has run. -/
def initState : SysState := ⟨[], []⟩

/-- One run of the render effect for request `r`: the canvas is reset; in
photo mode with a selected photo a pending load is registered (its flag
starting `false`), otherwise the palette background (including the text
layer) paints synchronously. -/
def renderEffect (noise : ℕ → ℚ × ℚ) (measure : JSStr → ℚ) (r : Request)
    (st : SysState) : SysState :=
  let width := (SIZE_DIMENSIONS r.size).1
  let height := (SIZE_DIMENSIONS r.size).2
  if r.backgroundMode = .photo ∧ r.selectedPhoto.isSome then
    { canvas := [], pending := st.pending ++ [(r, false)] }
  else
    { canvas := drawPaletteBackground noise measure r width height,
      pending := st.pending }

/-- Effect cleanup before a re-run: every live cleanup has run, so every
pending load's `isCancelled` flag is set. -/
def teardown (st : SysState) : SysState :=
  { st with pending := st.pending.map fun p => (p.1, true) }

/-- Completion of the `i`-th pending load.  Both handlers start with
`if (isCancelled) return`; otherwise `onload` paints the photo composition
and `onerror` falls back to `drawPaletteBackground()` for the captured
request. -/
def completeLoad (noise : ℕ → ℚ × ℚ) (measure : JSStr → ℚ) (i : ℕ)
    (outcome : LoadOutcome) (st : SysState) : SysState :=
  match st.pending.get? i with
  | none => st
  | some (r, cancelled) =>
    if cancelled then st
    else
      match outcome with
      | .success imgW imgH =>
        { st with canvas := st.canvas ++ photoOnloadCmds measure r imgW imgH }
      | .failure =>
        { st with canvas := st.canvas ++
            (drawPaletteBackground noise measure r
              (SIZE_DIMENSIONS r.size).1 (SIZE_DIMENSIONS r.size).2) }

/-! ## Effective-alpha interpretation of command lists

Replays the context commands to recover, for every paint command, the
global alpha in force when it executes. -/

inductive Eff
  | effDrawImage (alpha dx dy dw dh : ℚ)
  | effFillRect (alpha x y w h : ℚ) (style : FillStyle)
  | effFillText (alpha : ℚ) (text : JSStr) (x y fontSize : ℚ)
      (fontFamily color : JSStr)
deriving DecidableEq, Repr

/-- Replay a command list from global alpha `a` with save-stack `stk`. -/
def runCtx : ℚ → List ℚ → List Cmd → List Eff
  | _, _, [] => []
  | a, stk, Cmd.save :: rest => runCtx a (a :: stk) rest
  | _, [], Cmd.restore :: rest => runCtx 1 [] rest
  | _, b :: stk, Cmd.restore :: rest => runCtx b stk rest
  | _, stk, Cmd.setGlobalAlpha a :: rest => runCtx a stk rest
  | a, stk, Cmd.fillRect x y w h s :: rest =>
      Eff.effFillRect a x y w h s :: runCtx a stk rest
  | a, stk, Cmd.drawImage dx dy dw dh :: rest =>
      Eff.effDrawImage a dx dy dw dh :: runCtx a stk rest
  | a, stk, Cmd.fillText t x y fs fam c :: rest =>
      Eff.effFillText a t x y fs fam c :: runCtx a stk rest

/-- The effect of a pure paint command at alpha `a` (context commands have
no effect of their own). -/
def effOfDraw (a : ℚ) : Cmd → List Eff
  | Cmd.fillRect x y w h s => [Eff.effFillRect a x y w h s]
  | Cmd.drawImage dx dy dw dh => [Eff.effDrawImage a dx dy dw dh]
  | Cmd.fillText t x y fs fam c => [Eff.effFillText a t x y fs fam c]
  | _ => []

/-- Is the command a pure paint command (no context manipulation)? -/
def isDraw : Cmd → Bool
  | Cmd.fillRect _ _ _ _ _ => true
  | Cmd.drawImage _ _ _ _ => true
  | Cmd.fillText _ _ _ _ _ _ => true
  | _ => false

/-- Does the command paint in the reference-line font family? -/
def isRefCmd : Cmd → Bool
  | Cmd.fillText _ _ _ _ fam _ => decide (fam = interFamily)
  | _ => false

/-! ## Concrete instances used to witness the theorems -/

/-- A concrete width measure: one unit per character. -/
def mlen (s : JSStr) : ℚ := (s.length : ℚ)

/-- A concrete `Math.random()` stream. -/
def zeroNoise : ℕ → ℚ × ℚ := fun _ => (0, 0)

/-- A concrete photo-mode request. -/
def sampleReq1 : Request :=
  { verseText := strToL "Be still, and know that I am God."
    reference := strToL "Psalm 46:10"
    style := .minimal
    size := .square
    backgroundMode := .photo
    selectedPhoto := some
      ⟨strToL "abc", strToL "hills", strToL "jo", strToL "https://u/p",
       strToL "https://img/t.jpg", strToL "https://img/x.jpg"⟩
    paletteSettings := DEFAULT_PALETTE_SETTINGS
    photoAppearance :=
      ⟨1 / 2, strToL "#000000", 7 / 20, strToL "#FFFFFF"⟩ }

/-- The same request switched back to palette mode. -/
def sampleReq2 : Request := { sampleReq1 with backgroundMode := .palette }

/-! # Theorems -/

/-! ## Shared helper lemmas -/

theorem collapseWSAux_false_ne_nil (c : Char) (s : JSStr) :
    collapseWSAux false (c :: s) ≠ [] := by
  unfold collapseWSAux
  split <;> simp

theorem collapseWS_ne_nil (s : JSStr) (h : s ≠ []) : collapseWS s ≠ [] := by
  cases s with
  | nil => exact absurd rfl h
  | cons c rest => exact collapseWSAux_false_ne_nil c rest

theorem doubled_flatten_length (s : JSStr) :
    ((s.map fun c => [c, c]).flatten).length = 2 * s.length := by
  induction s with
  | nil => simp
  | cons c rest ih => simp [ih]; ring

/-! ## C5: palette reset round-trip -/

/-- C5: after any sequence of `updatePaletteSetting` modifications of any
initial settings, `resetPaletteSetting s` restores the entry of `s` to
exactly `DEFAULT_PALETTE_SETTINGS s` and leaves every other style's entry
unchanged. -/
theorem c5_reset_restores_default (init : StyleType → PaletteSetting)
    (us : List (StyleType × PaletteKey × JSStr)) (s t : StyleType) :
    resetPaletteSetting (applyPaletteUpdates init us) s s =
      DEFAULT_PALETTE_SETTINGS s ∧
    (t ≠ s →
      resetPaletteSetting (applyPaletteUpdates init us) s t =
        applyPaletteUpdates init us t) := by
  refine ⟨by simp [resetPaletteSetting], fun hts => ?_⟩
  simp [resetPaletteSetting, hts]

/-- Witness for C5 at a concrete update sequence. -/
theorem c5_reset_restores_default_witness :
    resetPaletteSetting
      (applyPaletteUpdates DEFAULT_PALETTE_SETTINGS
        [(.gradient, .background, strToL "#123456"),
         (.minimal, .text, strToL "#000000")]) .gradient .gradient =
      DEFAULT_PALETTE_SETTINGS .gradient ∧
    resetPaletteSetting
      (applyPaletteUpdates DEFAULT_PALETTE_SETTINGS
        [(.gradient, .background, strToL "#123456"),
         (.minimal, .text, strToL "#000000")]) .gradient .minimal =
      applyPaletteUpdates DEFAULT_PALETTE_SETTINGS
        [(.gradient, .background, strToL "#123456"),
         (.minimal, .text, strToL "#000000")] .minimal :=
  ⟨(c5_reset_restores_default DEFAULT_PALETTE_SETTINGS
      [(.gradient, .background, strToL "#123456"),
       (.minimal, .text, strToL "#000000")] .gradient .minimal).1,
   (c5_reset_restores_default DEFAULT_PALETTE_SETTINGS
      [(.gradient, .background, strToL "#123456"),
       (.minimal, .text, strToL "#000000")] .gradient .minimal).2
     (by decide)⟩

/-! ## C7: vertical centering identity -/

/-- C7: for any line count `n ≥ 1`, the layout's vertical placement
satisfies `startY + totalBlockHeight / 2 = height / 2`, where
`lineHeight = fontSize * 1.5`, `totalBlockHeight = n * lineHeight` and
`startY = (height - totalBlockHeight) / 2`. -/
theorem c7_block_vertically_centered (h : ℚ) (sz : SizeType) (n : ℕ)
    (_hn : 1 ≤ n) :
    startYOf h sz n + totalHeightOf sz n / 2 = h / 2 := by
  unfold startYOf
  ring

/-- Witness for C7 at two lines on a square surface. -/
theorem c7_block_vertically_centered_witness :
    startYOf 1080 .square 2 + totalHeightOf .square 2 / 2 = 1080 / 2 :=
  c7_block_vertically_centered 1080 .square 2 (by norm_num)

/-! ## C10: `hexToRgba` is total with `rgba(r, g, b, a)` shape -/

/-- C10: on every input string (malformed or not) `hexToRgba` produces a
string of the shape `rgba(r, g, b, a)` — it is total, so a non-hex color
can only yield a visually wrong color, never a crash; moreover the
six-character hex body is always exactly six characters (3-character
shorthand doubled, shorter inputs padded with `'0'`). -/
theorem c10_hexToRgba_total_shape (hex alphaStr : JSStr) :
    (∃ rs gs bs : JSStr,
      hexToRgba hex alphaStr =
        strToL "rgba(" ++ rs ++ strToL ", " ++ gs ++ strToL ", " ++ bs ++
          strToL ", " ++ alphaStr ++ strToL ")") ∧
    (fullHexOf hex).length = 6 := by
  constructor
  · exact ⟨jsNumStr (jsParseIntHex ((fullHexOf hex).take 2)),
      jsNumStr (jsParseIntHex (((fullHexOf hex).drop 2).take 2)),
      jsNumStr (jsParseIntHex (((fullHexOf hex).drop 4).take 2)), rfl⟩
  · by_cases hlen : (replaceFirstHash hex).length = 3
    · have hfold : fullHexOf hex =
          ((replaceFirstHash hex).map fun c => [c, c]).flatten := by
        simp [fullHexOf, hlen]
      rw [hfold, doubled_flatten_length, hlen]
    · simp [fullHexOf, hlen, padEndZero6]
      omega

/-! ## C9: export filename (corrected) -/

/-- C9 counterexample: a whitespace-only reference does not fall back to
`"verse"`; the code produces `stillverse--.png` for the reference `" "`. -/
theorem c9_whitespace_reference_counterexample :
    handleDownloadFilename (strToL " ") = strToL "stillverse--.png" ∧
    strToL "stillverse--.png" ≠ strToL "stillverse-verse.png" := by
  constructor
  · decide
  · decide

/-- C9 amended: the filename is `stillverse-` + (whitespace runs collapsed
to hyphens, then lowercased) + `.png`, with the `verse` fallback applying
exactly when the reference is the empty string; a whitespace-only
reference yields hyphens, not the fallback. -/
theorem c9_filename_normalization (ref : JSStr) :
    (ref = [] → handleDownloadFilename ref = strToL "stillverse-verse.png") ∧
    (ref ≠ [] → handleDownloadFilename ref =
      strToL "stillverse-" ++ (collapseWS ref).map Char.toLower ++
        strToL ".png") := by
  constructor
  · intro h
    subst h
    decide
  · intro h
    unfold handleDownloadFilename jsOrDefault
    rw [if_neg]
    simp [collapseWS_ne_nil ref h]

/-- Witness for C9's amended statement at the default reference. -/
theorem c9_filename_normalization_witness :
    strToL "Psalm 46:10" ≠ ([] : JSStr) ∧
    handleDownloadFilename (strToL "Psalm 46:10") =
      strToL "stillverse-" ++
        (collapseWS (strToL "Psalm 46:10")).map Char.toLower ++
        strToL ".png" :=
  ⟨by decide, (c9_filename_normalization (strToL "Psalm 46:10")).2 (by decide)⟩

/-! ## C6: the reference line -/

/-- C6: the reference-font paint commands of `drawTextLayer` are empty when
the reference label is empty; otherwise they are exactly one text draw of
the reference centered at `width / 2`, at `startY + totalBlockHeight + 80`,
in the smaller reference font, colored with the body text color plus the
`"CC"` alpha suffix — and the reference font table is story=36, wide=32,
square=34. -/
theorem c6_reference_line_drawn (measure : JSStr → ℚ) (tc vt ref : JSStr)
    (sz : SizeType) (w h : ℚ) :
    (drawTextLayer measure tc vt ref sz w h).filter isRefCmd =
      (if ref = [] then []
       else [Cmd.fillText ref (w / 2)
              (startYOf h sz (layoutLines measure vt w).length +
                totalHeightOf sz (layoutLines measure vt w).length + 80)
              (refFontSize sz) interFamily (tc ++ strToL "CC")]) ∧
    refFontSize .story = 36 ∧ refFontSize .wide = 32 ∧
      refFontSize .square = 34 := by
  refine ⟨?_, rfl, rfl, rfl⟩
  simp only [drawTextLayer, List.filter_append]
  have hbody :
      ((layoutLines measure vt w).enum.map fun p =>
        Cmd.fillText p.2 (w / 2)
          (startYOf h sz (layoutLines measure vt w).length +
            ((p.1 : ℚ) + 1 / 2) * lineHeightOf sz)
          (bodyFontSize sz) playfairFamily tc).filter isRefCmd = [] := by
    rw [List.filter_eq_nil_iff]
    intro c hc
    obtain ⟨p, _, rfl⟩ := List.mem_map.1 hc
    simp [isRefCmd, playfairFamily, interFamily, strToL]
  rw [hbody]
  by_cases href : ref = []
  · simp [href]
  · simp [href, isRefCmd]

/-! ## C3: empty verse text (corrected) -/

theorem layoutLines_empty_verse (measure : JSStr → ℚ) (w : ℚ) :
    layoutLines measure [] w = [[]] := by
  simp [layoutLines, wrapLines, splitOnSpace, wrapStep, trim, trimHead,
    trimTail, List.dropWhile]

theorem drawTextLayer_empty_verse (measure : JSStr → ℚ) (tc ref : JSStr)
    (sz : SizeType) (w h : ℚ) (href : ref ≠ []) :
    drawTextLayer measure tc [] ref sz w h =
      [Cmd.fillText [] (w / 2) (h / 2) (bodyFontSize sz) playfairFamily tc,
       Cmd.fillText ref (w / 2) (h / 2 + bodyFontSize sz * (3 / 4) + 80)
         (refFontSize sz) interFamily (tc ++ strToL "CC")] := by
  simp only [drawTextLayer, layoutLines_empty_verse, List.enum, href,
    if_neg href, List.length_cons, List.length_nil]
  simp [startYOf, totalHeightOf, lineHeightOf]
  constructor <;> ring

/-- C3 counterexample: with empty verse text the code produces one line
(the empty string), a text block of height `lineHeight ≠ 0`, and (square
preset, 1080×1080) draws the reference at y = 671, which differs from the
claimed `height / 2 + 80 = 620`. -/
theorem c3_empty_verse_counterexample :
    (layoutLines mlen [] 1080).length = 1 ∧
    totalHeightOf .square (layoutLines mlen [] 1080).length = 102 ∧
    drawTextLayer mlen (strToL "#1B4332") [] (strToL "Psalm 46:10") .square
        1080 1080 =
      [Cmd.fillText [] 540 540 68 playfairFamily (strToL "#1B4332"),
       Cmd.fillText (strToL "Psalm 46:10") 540 671 34 interFamily
         (strToL "#1B4332CC")] ∧
    (671 : ℚ) ≠ 1080 / 2 + 80 := by
  refine ⟨?_, ?_, ?_, by norm_num⟩
  · rw [layoutLines_empty_verse]
    rfl
  · rw [layoutLines_empty_verse]
    norm_num [totalHeightOf, lineHeightOf, bodyFontSize]
  · rw [drawTextLayer_empty_verse mlen _ _ _ _ _ (by decide)]
    norm_num [bodyFontSize, refFontSize]
    decide

/-- C3 amended: empty verse text yields exactly one (empty) line, a block
of height `lineHeight = fontSize * 1.5`, the empty body line centered at
`height / 2`, and a nonempty reference drawn at
`height / 2 + fontSize * 0.75 + 80` (not `height / 2 + 80`). -/
theorem c3_empty_verse_layout (measure : JSStr → ℚ) (tc ref : JSStr)
    (sz : SizeType) (w h : ℚ) (href : ref ≠ []) :
    layoutLines measure [] w = [[]] ∧
    drawTextLayer measure tc [] ref sz w h =
      [Cmd.fillText [] (w / 2) (h / 2) (bodyFontSize sz) playfairFamily tc,
       Cmd.fillText ref (w / 2) (h / 2 + bodyFontSize sz * (3 / 4) + 80)
         (refFontSize sz) interFamily (tc ++ strToL "CC")] :=
  ⟨layoutLines_empty_verse measure w,
   drawTextLayer_empty_verse measure tc ref sz w h href⟩

/-- Witness for C3's amended statement on the square preset. -/
theorem c3_empty_verse_layout_witness :
    layoutLines mlen [] 1080 = [[]] ∧
    drawTextLayer mlen (strToL "#1B4332") [] (strToL "Psalm 46:10") .square
        1080 1080 =
      [Cmd.fillText [] (1080 / 2) (1080 / 2) (bodyFontSize .square)
        playfairFamily (strToL "#1B4332"),
       Cmd.fillText (strToL "Psalm 46:10") (1080 / 2)
         (1080 / 2 + bodyFontSize .square * (3 / 4) + 80)
         (refFontSize .square) interFamily
         (strToL "#1B4332" ++ strToL "CC")] :=
  c3_empty_verse_layout mlen (strToL "#1B4332") (strToL "Psalm 46:10")
    .square 1080 1080 (by decide)

/-! ## C2: staleness guard -/

/-- C2: if a photo-mode request `r1` starts an image load and the request
then changes to `r2` (the effect is torn down and re-run), completing the
stale load — successfully or not — is a no-op: the system state, and in
particular the canvas, is exactly the one produced by the `r2` run. -/
theorem c2_stale_load_never_paints (noise : ℕ → ℚ × ℚ)
    (measure : JSStr → ℚ) (r1 r2 : Request) (out : LoadOutcome)
    (h1 : r1.backgroundMode = .photo) (h2 : r1.selectedPhoto.isSome) :
    completeLoad noise measure 0 out
      (renderEffect noise measure r2
        (teardown (renderEffect noise measure r1 initState))) =
    renderEffect noise measure r2
      (teardown (renderEffect noise measure r1 initState)) := by
  have hs1 : renderEffect noise measure r1 initState =
      { canvas := [], pending := [(r1, false)] } := by
    simp [renderEffect, initState, h1, h2]
  rw [hs1]
  by_cases hc : r2.backgroundMode = .photo ∧ r2.selectedPhoto.isSome
  · simp [renderEffect, teardown, hc, completeLoad]
  · simp [renderEffect, teardown, hc, completeLoad]

/-- Witness for C2: a concrete photo request whose load completes after a
switch back to palette mode. -/
theorem c2_stale_load_never_paints_witness :
    completeLoad zeroNoise mlen 0 (.success 800 600)
      (renderEffect zeroNoise mlen sampleReq2
        (teardown (renderEffect zeroNoise mlen sampleReq1 initState))) =
    renderEffect zeroNoise mlen sampleReq2
      (teardown (renderEffect zeroNoise mlen sampleReq1 initState)) :=
  c2_stale_load_never_paints zeroNoise mlen sampleReq1 sampleReq2
    (.success 800 600) rfl rfl

/-! ## C8: graceful photo-load failure -/

/-- C8: when the photo image load fails (and the effect was not torn
down), the canvas receives exactly the currently selected palette style's
background fill followed by its text layer — the composition degrades to
the palette rendering instead of surfacing an error. -/
theorem c8_onerror_palette_fallback (noise : ℕ → ℚ × ℚ)
    (measure : JSStr → ℚ) (r : Request)
    (h1 : r.backgroundMode = .photo) (h2 : r.selectedPhoto.isSome) :
    (completeLoad noise measure 0 .failure
      (renderEffect noise measure r initState)).canvas =
    paletteFillCmds noise r (SIZE_DIMENSIONS r.size).1
        (SIZE_DIMENSIONS r.size).2 ++
      drawTextLayer measure (r.paletteSettings r.style).text
        r.verseText r.reference r.size (SIZE_DIMENSIONS r.size).1
        (SIZE_DIMENSIONS r.size).2 := by
  have hs1 : renderEffect noise measure r initState =
      { canvas := [], pending := [(r, false)] } := by
    simp [renderEffect, initState, h1, h2]
  rw [hs1]
  simp [completeLoad, drawPaletteBackground]

/-- Witness for C8 at the concrete photo request. -/
theorem c8_onerror_palette_fallback_witness :
    (completeLoad zeroNoise mlen 0 .failure
      (renderEffect zeroNoise mlen sampleReq1 initState)).canvas =
    paletteFillCmds zeroNoise sampleReq1
        (SIZE_DIMENSIONS sampleReq1.size).1
        (SIZE_DIMENSIONS sampleReq1.size).2 ++
      drawTextLayer mlen
        (sampleReq1.paletteSettings sampleReq1.style).text
        sampleReq1.verseText sampleReq1.reference sampleReq1.size
        (SIZE_DIMENSIONS sampleReq1.size).1
        (SIZE_DIMENSIONS sampleReq1.size).2 :=
  c8_onerror_palette_fallback zeroNoise mlen sampleReq1 rfl rfl

/-! ## C4: the successful photo composition -/

theorem runCtx_draws (l : List Cmd) (a : ℚ) (stk : List ℚ)
    (h : ∀ c ∈ l, isDraw c = true) :
    runCtx a stk l = l.flatMap (effOfDraw a) := by
  induction l with
  | nil => simp [runCtx]
  | cons c rest ih =>
    have hc : isDraw c = true := h c (List.mem_cons_self c rest)
    have hrest : ∀ x ∈ rest, isDraw x = true := fun x hx =>
      h x (List.mem_cons_of_mem c hx)
    cases c with
    | save => simp [isDraw] at hc
    | restore => simp [isDraw] at hc
    | setGlobalAlpha a2 => simp [isDraw] at hc
    | fillRect x y w h2 s => simp [runCtx, effOfDraw, ih hrest]
    | drawImage dx dy dw dh => simp [runCtx, effOfDraw, ih hrest]
    | fillText t x y fs fam col => simp [runCtx, effOfDraw, ih hrest]

theorem drawTextLayer_all_draws (measure : JSStr → ℚ) (tc vt ref : JSStr)
    (sz : SizeType) (w h : ℚ) :
    ∀ c ∈ drawTextLayer measure tc vt ref sz w h, isDraw c = true := by
  intro c hc
  simp only [drawTextLayer, List.mem_append] at hc
  rcases hc with hc | hc
  · obtain ⟨p, _, rfl⟩ := List.mem_map.1 hc
    rfl
  · split at hc
    · simp at hc
    · simp at hc
      subst hc
      rfl

/-- C4: on a successful photo load, replaying the handler's commands from
the default global alpha shows: first the image, drawn with global alpha
`photoAppearance.photoOpacity`, scaled by the cover-fit factor
`max(width/imgWidth, height/imgHeight)` and centered; then — restored to
alpha 1, i.e. the photo opacity applies to that draw only — a full-surface
overlay fill in `hexToRgba overlayColor overlayOpacity` if and only if
`overlayOpacity > 0`; then the text layer in
`photoAppearance.textColor`, also at alpha 1. -/
theorem c4_photo_success_composition (measure : JSStr → ℚ) (r : Request)
    (imgW imgH : ℚ) :
    runCtx 1 [] (photoOnloadCmds measure r imgW imgH) =
      Eff.effDrawImage r.photoAppearance.photoOpacity
        (((SIZE_DIMENSIONS r.size).1 -
            imgW * max ((SIZE_DIMENSIONS r.size).1 / imgW)
              ((SIZE_DIMENSIONS r.size).2 / imgH)) / 2)
        (((SIZE_DIMENSIONS r.size).2 -
            imgH * max ((SIZE_DIMENSIONS r.size).1 / imgW)
              ((SIZE_DIMENSIONS r.size).2 / imgH)) / 2)
        (imgW * max ((SIZE_DIMENSIONS r.size).1 / imgW)
          ((SIZE_DIMENSIONS r.size).2 / imgH))
        (imgH * max ((SIZE_DIMENSIONS r.size).1 / imgW)
          ((SIZE_DIMENSIONS r.size).2 / imgH)) ::
      ((if 0 < r.photoAppearance.overlayOpacity then
          [Eff.effFillRect 1 0 0 (SIZE_DIMENSIONS r.size).1
            (SIZE_DIMENSIONS r.size).2
            (.solid (hexToRgba r.photoAppearance.overlayColor
              (qStr r.photoAppearance.overlayOpacity)))]
        else []) ++
       (drawTextLayer measure r.photoAppearance.textColor r.verseText
          r.reference r.size (SIZE_DIMENSIONS r.size).1
          (SIZE_DIMENSIONS r.size).2).flatMap (effOfDraw 1)) := by
  have htext := drawTextLayer_all_draws measure r.photoAppearance.textColor
    r.verseText r.reference r.size (SIZE_DIMENSIONS r.size).1
    (SIZE_DIMENSIONS r.size).2
  by_cases hov : 0 < r.photoAppearance.overlayOpacity
  · simp only [photoOnloadCmds, hov, if_true, List.cons_append,
      List.nil_append, List.singleton_append, runCtx]
    rw [show ([] : List Cmd).append
        (drawTextLayer measure r.photoAppearance.textColor r.verseText
          r.reference r.size (SIZE_DIMENSIONS r.size).1
          (SIZE_DIMENSIONS r.size).2) =
        drawTextLayer measure r.photoAppearance.textColor r.verseText
          r.reference r.size (SIZE_DIMENSIONS r.size).1
          (SIZE_DIMENSIONS r.size).2 from rfl]
    rw [runCtx_draws _ _ _ htext]
  · simp only [photoOnloadCmds, hov, if_false, List.cons_append,
      List.nil_append, runCtx]
    rw [show (([] : List Cmd).append []).append
        (drawTextLayer measure r.photoAppearance.textColor r.verseText
          r.reference r.size (SIZE_DIMENSIONS r.size).1
          (SIZE_DIMENSIONS r.size).2) =
        drawTextLayer measure r.photoAppearance.textColor r.verseText
          r.reference r.size (SIZE_DIMENSIONS r.size).1
          (SIZE_DIMENSIONS r.size).2 from rfl]
    rw [runCtx_draws _ _ _ htext]

/-! ## C1: the word-wrap width bound -/

theorem splitOnSpace_ne_nil (s : JSStr) : splitOnSpace s ≠ [] := by
  induction s with
  | nil => simp [splitOnSpace]
  | cons c rest ih =>
    unfold splitOnSpace
    split
    · simp
    · cases h : splitOnSpace rest with
      | nil => simp
      | cons t ts => simp

theorem splitOnSpace_no_space (s : JSStr) : ∀ w ∈ splitOnSpace s, ' ' ∉ w := by
  induction s with
  | nil =>
    intro w hw
    simp [splitOnSpace] at hw
    subst hw
    simp
  | cons c rest ih =>
    intro w hw
    unfold splitOnSpace at hw
    by_cases hc : c = ' '
    · rw [if_pos hc] at hw
      rcases List.mem_cons.1 hw with rfl | hw2
      · simp
      · exact ih w hw2
    · rw [if_neg hc] at hw
      cases h : splitOnSpace rest with
      | nil => exact absurd h (splitOnSpace_ne_nil rest)
      | cons t ts =>
        rw [h] at hw
        rcases List.mem_cons.1 hw with rfl | hw2
        · intro hmem
          rcases List.mem_cons.1 hmem with h1 | h2
          · exact hc h1.symm
          · exact ih t (h ▸ List.mem_cons_self t ts) h2
        · exact ih w (h ▸ List.mem_cons_of_mem t hw2)

theorem ws_space : (' ' : Char).isWhitespace = true := by decide

theorem trimTail_append_space (s : JSStr) : trimTail (s ++ [' ']) = trimTail s := by
  simp [trimTail, List.reverse_append, List.dropWhile_cons, ws_space]

theorem trim_append_space (s : JSStr) : trim (s ++ [' ']) = trim s := by
  simp [trim, trimTail_append_space]

theorem trimTail_sublist (s : JSStr) : List.Sublist (trimTail s) s := by
  unfold trimTail
  have h1 : (s.reverse.dropWhile Char.isWhitespace) <:+ s.reverse :=
    List.dropWhile_suffix Char.isWhitespace
  have h2 := h1.sublist.reverse
  rwa [List.reverse_reverse] at h2

theorem trim_sublist (s : JSStr) : List.Sublist (trim s) s := by
  have h1 : trimHead (trimTail s) <:+ trimTail s :=
    List.dropWhile_suffix Char.isWhitespace
  exact h1.sublist.trans (trimTail_sublist s)

theorem no_space_trim (s : JSStr) (h : ' ' ∉ s) : ' ' ∉ trim s :=
  fun hmem => h ((trim_sublist s).subset hmem)

theorem trimTail_isPre (s : JSStr) : trimTail s <+: s := by
  rw [show s = s.reverse.reverse from (List.reverse_reverse s).symm,
    ← List.reverse_suffix]
  unfold trimTail
  rw [List.reverse_reverse, List.reverse_reverse]
  exact List.dropWhile_suffix Char.isWhitespace

theorem trim_isInfix (s : JSStr) : trim s <:+: s := by
  have h1 : trimHead (trimTail s) <:+ trimTail s :=
    List.dropWhile_suffix Char.isWhitespace
  exact h1.isInfix.trans (trimTail_isPre s).isInfix

theorem measure_trim_le (measure : JSStr → ℚ)
    (hm : ∀ s t u : JSStr, measure t ≤ measure (s ++ t ++ u)) (s : JSStr) :
    measure (trim s) ≤ measure s := by
  obtain ⟨u, v, huv⟩ := trim_isInfix s
  calc measure (trim s) ≤ measure (u ++ trim s ++ v) := hm u (trim s) v
    _ = measure s := by rw [huv]

theorem good_trim (measure : JSStr → ℚ) (maxW : ℚ)
    (hm : ∀ s t u : JSStr, measure t ≤ measure (s ++ t ++ u)) (cur : JSStr)
    (hcur : cur = [] ∨ (∃ w, ' ' ∉ w ∧ cur = w ++ [' ']) ∨
      measure cur ≤ maxW) :
    measure (trim cur) ≤ maxW ∨ ' ' ∉ trim cur := by
  rcases hcur with rfl | ⟨w, hw, rfl⟩ | hle
  · right
    rw [show trim ([] : JSStr) = [] from rfl]
    simp
  · right
    rw [trim_append_space]
    exact no_space_trim w hw
  · left
    exact (measure_trim_le measure hm cur).trans hle

theorem wrap_invariant (measure : JSStr → ℚ) (maxW : ℚ)
    (hm : ∀ s t u : JSStr, measure t ≤ measure (s ++ t ++ u)) :
    ∀ words : List JSStr, (∀ w ∈ words, ' ' ∉ w) →
    ∀ acc : List JSStr × JSStr,
      (∀ l ∈ acc.1, measure l ≤ maxW ∨ ' ' ∉ l) →
      (acc.2 = [] ∨ (∃ w, ' ' ∉ w ∧ acc.2 = w ++ [' ']) ∨
        measure acc.2 ≤ maxW) →
      (∀ l ∈ (words.foldl (wrapStep measure maxW) acc).1,
        measure l ≤ maxW ∨ ' ' ∉ l) ∧
      ((words.foldl (wrapStep measure maxW) acc).2 = [] ∨
       (∃ w, ' ' ∉ w ∧
         (words.foldl (wrapStep measure maxW) acc).2 = w ++ [' ']) ∨
       measure (words.foldl (wrapStep measure maxW) acc).2 ≤ maxW) := by
  intro words
  induction words with
  | nil =>
    intro _ acc h1 h2
    simpa using ⟨h1, h2⟩
  | cons w ws ih =>
    intro hwords acc h1 h2
    rw [List.foldl_cons]
    have hws : ∀ x ∈ ws, ' ' ∉ x := fun x hx =>
      hwords x (List.mem_cons_of_mem w hx)
    have hw : ' ' ∉ w := hwords w (List.mem_cons_self w ws)
    by_cases hcond : maxW < measure (acc.2 ++ w ++ [' ']) ∧ acc.2 ≠ []
    · have hstep : wrapStep measure maxW acc w =
          (acc.1 ++ [trim acc.2], w ++ [' ']) := by
        simp only [wrapStep]
        rw [if_pos hcond]
      rw [hstep]
      apply ih hws
      · intro l hl
        rcases List.mem_append.1 hl with hmem | hmem
        · exact h1 l hmem
        · rw [List.mem_singleton] at hmem
          subst hmem
          exact good_trim measure maxW hm acc.2 h2
      · exact Or.inr (Or.inl ⟨w, hw, rfl⟩)
    · have hstep : wrapStep measure maxW acc w =
          (acc.1, acc.2 ++ w ++ [' ']) := by
        simp only [wrapStep]
        rw [if_neg hcond]
      rw [hstep]
      apply ih hws
      · exact h1
      · by_cases hnil : acc.2 = []
        · refine Or.inr (Or.inl ⟨w, hw, ?_⟩)
          rw [hnil, List.nil_append]
        · refine Or.inr (Or.inr ?_)
          exact le_of_not_lt fun hlt => hcond ⟨hlt, hnil⟩

/-- C1: every line the greedy wrap in `drawTextLayer` produces either
measures within `width * 0.8` (under the same abstract width measure used
while wrapping) or contains no space at all — i.e. it consists of a single
word, the only thing allowed to exceed the limit, placed alone on its own
line.  The measure is assumed monotone under surrounding context (a
segment never measures wider than the whole). -/
theorem c1_wrap_width_bound (measure : JSStr → ℚ)
    (hm : ∀ s t u : JSStr, measure t ≤ measure (s ++ t ++ u))
    (verseText : JSStr) (width : ℚ) :
    ∀ l ∈ layoutLines measure verseText width,
      measure l ≤ width * (4 / 5) ∨ ' ' ∉ l := by
  intro l hl
  simp only [layoutLines, wrapLines] at hl
  have hinv := wrap_invariant measure (width * (4 / 5)) hm
    (splitOnSpace verseText) (splitOnSpace_no_space verseText) ([], [])
    (by intro x hx; simp at hx) (Or.inl rfl)
  rcases List.mem_append.1 hl with hmem | hmem
  · exact hinv.1 l hmem
  · rw [List.mem_singleton] at hmem
    subst hmem
    exact good_trim measure (width * (4 / 5)) hm _ hinv.2

theorem mlen_concat_mono (s t u : JSStr) : mlen t ≤ mlen (s ++ t ++ u) := by
  have h : t.length ≤ (s ++ t ++ u).length := by
    simp
    omega
  simp only [mlen]
  exact_mod_cast h

theorem layoutLines_sample :
    layoutLines mlen (strToL "hi there") 100 = [strToL "hi there"] := by
  have hsplit : splitOnSpace (strToL "hi there") =
      [strToL "hi", strToL "there"] := by decide
  simp only [layoutLines, wrapLines, hsplit, List.foldl_cons, List.foldl_nil]
  have e1 : wrapStep mlen (100 * (4 / 5)) ([], []) (strToL "hi") =
      ([], strToL "hi ") := by
    simp only [wrapStep]
    rw [if_neg]
    · rw [show ([] : JSStr) ++ strToL "hi" ++ [' '] = strToL "hi " from
        by decide]
    · simp
  have e2 : wrapStep mlen (100 * (4 / 5)) ([], strToL "hi ")
      (strToL "there") = ([], strToL "hi there ") := by
    simp only [wrapStep]
    rw [if_neg]
    · rw [show strToL "hi " ++ strToL "there" ++ [' '] = strToL "hi there "
        from by decide]
    · rintro ⟨hlt, -⟩
      rw [show strToL "hi " ++ strToL "there" ++ [' '] = strToL "hi there "
        from by decide] at hlt
      rw [show mlen (strToL "hi there ") = 9 from by norm_num [mlen, strToL]]
        at hlt
      norm_num at hlt
  rw [e1, e2]
  rw [show trim (strToL "hi there ") = strToL "hi there" from by decide]
  rfl

/-- Witness for C1, at the character-count measure on a short verse. -/
theorem c1_wrap_width_bound_witness :
    mlen (strToL "hi there") ≤ 100 * (4 / 5) ∨ ' ' ∉ strToL "hi there" :=
  c1_wrap_width_bound mlen mlen_concat_mono (strToL "hi there") 100
    (strToL "hi there")
    (by rw [layoutLines_sample]; exact List.mem_singleton.2 rfl)

end Stillverse
